import Mathlib

/-!
Verification of the frame-relay core of a TCP-to-MJPEG stream receiver.

The repository holds two Python files, stream_server.py (the current,
resilient variant) and stream_server_working_backup.py (an older, simpler
variant).  Both implement a StreamReceiver that accepts one producer TCP
connection, deframes a length-prefixed byte stream into frames, and pushes
each frame into a bounded drop-oldest queue, plus a generator that wraps
buffered frames as multipart MJPEG chunks.

This file gives a shallow embedding of that code:
  * the bounded queue (Python queue.Queue with the full()/get()/put()
    drop-oldest pattern used at stream_server.py lines 111-113),
  * the byte-read primitive recvall of both variants,
  * the per-connection read loops of both variants,
  * the receiver lifecycle state (running flag, client, server socket),
  * the status endpoint and the MJPEG generator step.

Sockets are modelled as a remaining byte stream together with a schedule of
delivery events: each event either delivers up to a given number of bytes
(modelling arbitrary fragmentation of the TCP stream into partial reads) or
raises a socket timeout.  Once the schedule is exhausted, reads deliver as
many bytes as are available.  Wall-clock time inside recvall is idealised:
only a socket-timeout wait consumes measurable time (5 seconds, the
per-socket timeout set at stream_server.py line 92), byte deliveries are
instantaneous; the 10-second total window of recvall is kept as in the
source.
-/

/-- The bounded frame queue push, from stream_server.py lines 111-113 (and
stream_server_working_backup.py lines 68-70):
`if frame_queue.full(): frame_queue.get()` then `frame_queue.put(frame)`.
Python's Queue.full() is `0 < maxsize <= qsize()`; get() removes the oldest
(front) entry, put() appends.  The operation is total: it never blocks and
never fails. -/
def queuePush {α : Type} (cap : Nat) (q : List α) (x : α) : List α :=
  (if 0 < cap ∧ cap ≤ q.length then q.drop 1 else q) ++ [x]

/-- The consumer's guarded pop, from generate_frames (stream_server.py lines
175-176): `if not frame_queue.empty(): frame_queue.get()`.  Returns the
oldest entry and the remaining queue, or none when the queue is empty. -/
def tryPop {α : Type} (q : List α) : Option (α × List α) :=
  match q with
  | [] => none
  | x :: xs => some (x, xs)

/-- Repeated tryPop calls, collecting the yielded frames in order; the
step count bounds the number of pop attempts. -/
def drainSteps {α : Type} : Nat → List α → List α
  | 0, _ => []
  | fuel + 1, q =>
    match tryPop q with
    | none => []
    | some (x, q1) => x :: drainSteps fuel q1

/-- All frames obtained by repeatedly calling tryPop until it reports
empty. -/
def drainList {α : Type} (q : List α) : List α :=
  drainSteps q.length q

/-- Byte values of a string literal (all literals used are ASCII, so
Char.toNat is the byte value). -/
def strBytes (s : String) : List Nat :=
  s.toList.map Char.toNat

/-- The multipart chunk built by generate_frames, stream_server.py lines
177-178: `b'--frame\r\n' b'Content-Type: image/jpeg\r\n\r\n' + frame +
b'\r\n'`. -/
def mjpegWrap (f : List Nat) : List Nat :=
  strBytes ("--frame\r\n") ++ strBytes ("Content-Type: image/jpeg\r\n\r\n")
    ++ f ++ strBytes ("\r\n")

/-- One iteration of the generate_frames loop, stream_server.py lines
173-180: on a non-empty queue, pop the oldest frame and yield its multipart
wrapping; on an empty queue, yield nothing and sleep 0.01 s (10 ms).  The
result is (queue after the step, yielded chunk if any, sleep in
milliseconds if any).  The surrounding loop is `while True`: every input
has a successor step, the generator never terminates on its own. -/
def generateStep (q : List (List Nat)) :
    List (List Nat) × Option (List Nat) × Option Nat :=
  match q with
  | [] => ([], none, some 10)
  | f :: rest => (rest, some (mjpegWrap f), none)

/-- The receiver lifecycle state of stream_server.py: the running flag
(line 33), the current producer connection (line 35, None when no producer
is connected), and whether the listening socket is set up and bound
(lines 51-61; false once closed by stop, lines 161-169). -/
structure Receiver where
  running : Bool
  currentClient : Option Unit
  serverSocketOpen : Bool
deriving DecidableEq

/-- The state established by StreamReceiver.__init__ (stream_server.py
lines 31-36): running is set to True, no client is connected, and
setup_socket has bound the listening socket. -/
def initReceiver : Receiver :=
  { running := true, currentClient := none, serverSocketOpen := true }

/-- cleanup_client (stream_server.py lines 69-80): closes any current
client connection and sets current_client to None. -/
def cleanupClient (r : Receiver) : Receiver :=
  { r with currentClient := none }

/-- stop (stream_server.py lines 157-169): clears the running flag, cleans
up the client connection, and shuts down and closes the server socket. -/
def stopReceiver (r : Receiver) : Receiver :=
  let r1 := { r with running := false }
  let r2 := cleanupClient r1
  { r2 with serverSocketOpen := false }

/-- setup_socket (stream_server.py lines 38-67): replaces the server
socket; on bind success the socket is listening and True is returned, on
bind failure it is not listening and False is returned (after a 5 s wait).
The bind outcome is an environment input.  The running flag is never
touched. -/
def setupSocket (r : Receiver) (bindOk : Bool) : Receiver × Bool :=
  ({ r with serverSocketOpen := bindOk }, bindOk)

/-- The status endpoint (stream_server.py lines 196-202): returns
`frame_queue.qsize()` and `receiver.running`. -/
def statusEndpoint (q : List (List Nat)) (r : Receiver) : Nat × Bool :=
  (q.length, r.running)

/-- Big-endian 4-byte encoding of a uint32, the producer side of
`struct.unpack('!I', size_data)` (stream_server.py line 102). -/
def beEncode4 (n : Nat) : List Nat :=
  [n / 16777216 % 256, n / 65536 % 256, n / 256 % 256, n % 256]

/-- Big-endian interpretation of a byte list; on the 4-byte lists produced
by recvall this is exactly `struct.unpack('!I', size_data)[0]`
(stream_server.py line 102, stream_server_working_backup.py line 61). -/
def beDecode (l : List Nat) : Nat :=
  l.foldl (fun a b => a * 256 + b) 0

/-- One socket delivery event: either the network delivers up to a given
number of bytes to a recv call (modelling arbitrary fragmentation of the
stream into partial reads), or the recv call raises socket.timeout
(possible only in stream_server.py, whose client socket has a 5 s timeout,
line 92). -/
inductive Ev where
  | chunk (size : Nat)
  | tmo
deriving DecidableEq

/-- A producer connection as seen by the receiver: the bytes not yet
delivered, and the schedule of delivery events.  Once the schedule is
exhausted, each recv delivers as many of the remaining bytes as were
requested. -/
structure Sock where
  data : List Nat
  events : List Ev
deriving DecidableEq

/-- One sock.recv(m) call: delivers a prefix of the remaining bytes, of
length bounded by the request and by the current event's chunk size, or
raises socket.timeout (the none result).  An empty delivered packet means
the peer closed the connection (EOF). -/
def recv (s : Sock) (m : Nat) : Option (List Nat) × Sock :=
  match s.events with
  | [] =>
    let k := min m s.data.length
    (some (s.data.take k), ⟨s.data.drop k, []⟩)
  | Ev.tmo :: evs => (none, ⟨s.data, evs⟩)
  | Ev.chunk c :: evs =>
    let k := min m (min c s.data.length)
    (some (s.data.take k), ⟨s.data.drop k, evs⟩)

/-- A delivery event is well formed when it is a chunk of at least one
byte (a recv on a connection with available data returns at least one
byte, and no timeout fires). -/
def Ev.isGood : Ev → Bool
  | Ev.chunk c => decide (0 < c)
  | Ev.tmo => false

/-- All events of a schedule deliver at least one byte and none is a
timeout. -/
def GoodEvents (evs : List Ev) : Prop :=
  ∀ e ∈ evs, e.isGood = true

instance : DecidablePred GoodEvents := by
  intro evs
  unfold GoodEvents
  infer_instance

/-- Result of a recvall call: the n requested bytes, or None (EOF before
n bytes), or a raised socket.timeout. -/
inductive RecvRes where
  | ok (bytes : List Nat)
  | eof
  | timedOut
deriving DecidableEq

/-- The loop of recvall in stream_server.py lines 134-155:
`while len(data) < n and time.time() - start_time < 10:` request
`min(n - len(data), 8192)` bytes; an empty packet returns None; a
socket.timeout advances the clock by the 5 s socket timeout and continues;
after the loop, fewer than n bytes raises socket.timeout.  Time t is in
seconds; the fuel argument only bounds the recursion and is chosen large
enough by the recvallMain wrapper. -/
def recvallMainGo : Nat → Sock → Nat → List Nat → Nat → RecvRes × Sock
  | 0, s, _, _, _ => (RecvRes.eof, s)
  | fuel + 1, s, n, acc, t =>
    if acc.length < n ∧ t < 10 then
      match recv s (min (n - acc.length) 8192) with
      | (none, s1) => recvallMainGo fuel s1 n acc (t + 5)
      | (some p, s1) =>
        if p.isEmpty then (RecvRes.eof, s1)
        else recvallMainGo fuel s1 n (acc ++ p) t
    else if acc.length < n then (RecvRes.timedOut, s)
    else (RecvRes.ok acc, s)

/-- recvall of stream_server.py (lines 134-155), started with an empty
accumulator and elapsed time 0.  The loop adds at least one byte per
delivering iteration and tolerates at most two timeout iterations before
the 10 s window closes, so fuel n + 3 is never exhausted. -/
def recvallMain (s : Sock) (n : Nat) : RecvRes × Sock :=
  recvallMainGo (n + 3) s n [] 0

/-- The loop of recvall in stream_server_working_backup.py lines 82-90:
`while len(data) < n:` request `n - len(data)` bytes; an empty packet
returns None.  There is no timeout handling: a socket.timeout would
propagate out of the loop (modelled as the timedOut result); in practice
the backup variant never sets a socket timeout. -/
def recvallBackupGo : Nat → Sock → Nat → List Nat → RecvRes × Sock
  | 0, s, _, _ => (RecvRes.eof, s)
  | fuel + 1, s, n, acc =>
    if acc.length < n then
      match recv s (n - acc.length) with
      | (none, s1) => (RecvRes.timedOut, s1)
      | (some p, s1) =>
        if p.isEmpty then (RecvRes.eof, s1)
        else recvallBackupGo fuel s1 n (acc ++ p)
    else (RecvRes.ok acc, s)

/-- recvall of stream_server_working_backup.py (lines 82-90). -/
def recvallBackup (s : Sock) (n : Nat) : RecvRes × Sock :=
  recvallBackupGo (n + 1) s n []

/-- How a per-connection read loop ends: the connection is considered lost
(EOF, an empty size or frame read: the `if not ...` checks), the length
prefix exceeded the 10 MB bound (ValueError, stream_server.py line 104),
or a socket.timeout propagated out of recvall. -/
inductive Stop where
  | connLost
  | oversize
  | timedOut
deriving DecidableEq

/-- The per-connection read loop of stream_server.py lines 96-113: read a
4-byte size prefix with recvall (a falsy result raises socket.error),
unpack it big-endian, raise ValueError if it exceeds 10,000,000, read that
many payload bytes with recvall (a falsy result raises socket.error), and
perform the drop-oldest push; all raised errors abort the connection.  The
result is the list of pushed frames in push order and the abort reason.
The fuel only bounds the recursion and is chosen large enough by the
receiveFramesMain wrapper (each continuing iteration consumes at least 5
bytes of the stream). -/
def receiveFramesMainGo : Nat → Sock → List (List Nat) × Stop
  | 0, _ => ([], Stop.connLost)
  | fuel + 1, s =>
    match recvallMain s 4 with
    | (RecvRes.eof, _) => ([], Stop.connLost)
    | (RecvRes.timedOut, _) => ([], Stop.timedOut)
    | (RecvRes.ok sizeData, s1) =>
      if sizeData.isEmpty then ([], Stop.connLost)
      else
        let frameSize := beDecode sizeData
        if 10000000 < frameSize then ([], Stop.oversize)
        else
          match recvallMain s1 frameSize with
          | (RecvRes.eof, _) => ([], Stop.connLost)
          | (RecvRes.timedOut, _) => ([], Stop.timedOut)
          | (RecvRes.ok frameData, s2) =>
            if frameData.isEmpty then ([], Stop.connLost)
            else
              let r := receiveFramesMainGo fuel s2
              (frameData :: r.1, r.2)

/-- The per-connection read loop of stream_server.py (lines 96-113). -/
def receiveFramesMain (s : Sock) : List (List Nat) × Stop :=
  receiveFramesMainGo (s.data.length + 1) s

/-- The per-connection read loop of stream_server_working_backup.py lines
55-70: identical to the stream_server.py loop except that there is no
maximum-size check on the length prefix, and falsy recvall results break
out of the loop instead of raising (the same connection abort). -/
def receiveFramesBackupGo : Nat → Sock → List (List Nat) × Stop
  | 0, _ => ([], Stop.connLost)
  | fuel + 1, s =>
    match recvallBackup s 4 with
    | (RecvRes.eof, _) => ([], Stop.connLost)
    | (RecvRes.timedOut, _) => ([], Stop.timedOut)
    | (RecvRes.ok sizeData, s1) =>
      if sizeData.isEmpty then ([], Stop.connLost)
      else
        let frameSize := beDecode sizeData
        match recvallBackup s1 frameSize with
        | (RecvRes.eof, _) => ([], Stop.connLost)
        | (RecvRes.timedOut, _) => ([], Stop.timedOut)
        | (RecvRes.ok frameData, s2) =>
          if frameData.isEmpty then ([], Stop.connLost)
          else
            let r := receiveFramesBackupGo fuel s2
            (frameData :: r.1, r.2)

/-- The per-connection read loop of stream_server_working_backup.py
(lines 55-70). -/
def receiveFramesBackup (s : Sock) : List (List Nat) × Stop :=
  receiveFramesBackupGo (s.data.length + 1) s

/-- One iteration of the outer `while self.running` loop of
receive_frames (stream_server.py lines 84-132): when running, accept a
connection, run the per-connection read loop, and clean up the client in
the finally block; when not running, the loop body never executes. -/
def receiveIteration (r : Receiver) (conn : Sock) :
    Receiver × List (List Nat) :=
  if r.running then (cleanupClient r, (receiveFramesMain conn).1)
  else (r, [])

/-- Deframing as a pure function of the connection's byte stream: the
meaning of either read loop once delivery fragmentation is factored out.
With checkMax the 10 MB bound of stream_server.py is enforced; without it
the stream_server_working_backup.py behaviour is obtained. -/
def deframePure (checkMax : Bool) (data : List Nat) : List (List Nat) × Stop :=
  if _h : data.length < 4 then ([], Stop.connLost)
  else
    let fs := beDecode (data.take 4)
    if checkMax ∧ 10000000 < fs then ([], Stop.oversize)
    else if data.length < 4 + fs then ([], Stop.connLost)
    else if fs = 0 then ([], Stop.connLost)
    else
      let r := deframePure checkMax (data.drop (4 + fs))
      ((data.drop 4).take fs :: r.1, r.2)
termination_by data.length
decreasing_by
  simp only [List.length_drop]
  omega

lemma beDecode_beEncode4 (n : Nat) (h : n < 4294967296) :
    beDecode (beEncode4 n) = n := by
  simp [beDecode, beEncode4, List.foldl]
  omega

lemma length_beEncode4 (n : Nat) : (beEncode4 n).length = 4 := rfl

lemma drainSteps_eq (fuel : Nat) :
    ∀ q : List (List Nat), q.length ≤ fuel → drainSteps fuel q = q := by
  induction fuel with
  | zero =>
    intro q hq
    cases q with
    | nil => rfl
    | cons x xs => simp at hq
  | succ fuel ih =>
    intro q hq
    cases q with
    | nil => rfl
    | cons x xs =>
      simp only [drainSteps, tryPop]
      rw [ih xs (by simpa using Nat.le_of_succ_le_succ (by simpa using hq))]

lemma drainList_eq (q : List (List Nat)) : drainList q = q :=
  drainSteps_eq q.length q le_rfl

lemma foldl_queuePush {α : Type} (N : Nat) (hN : 0 < N) :
    ∀ (l q : List α), q.length ≤ N →
      List.foldl (queuePush N) q l = (q ++ l).drop (q.length + l.length - N) := by
  intro l
  induction l with
  | nil =>
    intro q hq
    simp [Nat.sub_eq_zero_of_le hq]
  | cons x l ih =>
    intro q hq
    simp only [List.foldl_cons]
    by_cases hfull : N ≤ q.length
    · have hql : q.length = N := Nat.le_antisymm hq hfull
      have hq1 : (queuePush N q x).length ≤ N := by
        simp [queuePush, hN, hfull, hql]
        omega
      rw [ih (queuePush N q x) hq1]
      have hqx : queuePush N q x = q.drop 1 ++ [x] := by
        simp [queuePush, hN, hfull]
      rw [hqx]
      cases q with
      | nil => simp at hql; omega
      | cons y ys =>
        have hys : ys.length + 1 = N := by simpa using hql
        simp only [List.drop_one, List.tail_cons]
        have e2 : ys ++ [x] ++ l = ys ++ x :: l := by simp
        have e3 : (ys ++ [x]).length + l.length - N = l.length := by
          simp [List.length_append]
          omega
        have e4 : (y :: ys).length + (x :: l).length - N = l.length + 1 := by
          simp [List.length_cons]
          omega
        rw [e2, e3, e4, List.cons_append, List.drop_succ_cons]
    · have hlt : q.length < N := Nat.lt_of_not_le hfull
      have hqx : queuePush N q x = q ++ [x] := by
        simp [queuePush]
        intro _
        omega
      rw [hqx, ih (q ++ [x]) (by simp; omega)]
      have e5 : q ++ [x] ++ l = q ++ x :: l := by
        simp [List.append_assoc]
      have e6 : (q ++ [x]).length + l.length - N =
          q.length + (x :: l).length - N := by
        simp [List.length_append, List.length_cons]
        omega
      rw [e5, e6]

lemma foldl_queuePush_nil {α : Type} (N : Nat) (hN : 0 < N) (l : List α) :
    List.foldl (queuePush N) [] l = l.drop (l.length - N) := by
  have h := foldl_queuePush N hN l [] (by simp)
  simpa using h

lemma goodEvents_nil : GoodEvents [] := by
  intro e he
  simp at he

lemma goodEvents_cons {e : Ev} {evs : List Ev} (h : GoodEvents (e :: evs)) :
    e.isGood = true ∧ GoodEvents evs :=
  ⟨h e (List.mem_cons_self e evs), fun x hx => h x (List.mem_cons_of_mem e hx)⟩

lemma goodEvents_suffix {evs1 evs : List Ev} (hs : evs1 <:+ evs)
    (h : GoodEvents evs) : GoodEvents evs1 :=
  fun e he => h e (hs.subset he)

lemma recv_not_none {s : Sock} {m : Nat} {s1 : Sock}
    (hg : GoodEvents s.events) (hr : recv s m = (none, s1)) : False := by
  rcases s with ⟨data, events⟩
  cases events with
  | nil => simp [recv] at hr
  | cons e evs =>
    cases e with
    | tmo =>
      have := (goodEvents_cons hg).1
      simp [Ev.isGood] at this
    | chunk c => simp [recv] at hr

lemma recv_some_spec {s : Sock} {m : Nat} {p : List Nat} {s1 : Sock}
    (hg : GoodEvents s.events) (hr : recv s m = (some p, s1)) :
    ∃ k, k ≤ m ∧ k ≤ s.data.length ∧ p = s.data.take k
      ∧ s1.data = s.data.drop k ∧ s1.events <:+ s.events
      ∧ (0 < m → 0 < s.data.length → 0 < k) := by
  rcases s with ⟨data, events⟩
  cases events with
  | nil =>
    simp only [recv] at hr
    have hp : p = data.take (min m data.length) :=
      (Option.some.inj (congrArg Prod.fst hr)).symm
    have hs1 : s1 = ⟨data.drop (min m data.length), []⟩ :=
      (congrArg Prod.snd hr).symm
    subst hs1
    refine ⟨min m data.length, Nat.min_le_left _ _, Nat.min_le_right _ _,
      hp, rfl, List.suffix_refl _, ?_⟩
    intro hm hd
    simp at hd ⊢
    omega
  | cons e evs =>
    cases e with
    | tmo =>
      have := (goodEvents_cons hg).1
      simp [Ev.isGood] at this
    | chunk c =>
      have hc : 0 < c := by
        have := (goodEvents_cons hg).1
        simpa [Ev.isGood] using this
      simp only [recv] at hr
      have hp : p = data.take (min m (min c data.length)) :=
        (Option.some.inj (congrArg Prod.fst hr)).symm
      have hs1 : s1 = ⟨data.drop (min m (min c data.length)), evs⟩ :=
        (congrArg Prod.snd hr).symm
      subst hs1
      refine ⟨min m (min c data.length), Nat.min_le_left _ _, ?_,
        hp, rfl, List.suffix_cons _ _, ?_⟩
      · simp
      · intro hm hd
        simp at hd ⊢
        omega

lemma recv_some_length {s : Sock} {m : Nat} {p : List Nat} {s1 : Sock}
    (hr : recv s m = (some p, s1)) : p.length ≤ m := by
  rcases s with ⟨data, events⟩
  cases events with
  | nil =>
    simp only [recv] at hr
    have hp : p = data.take (min m data.length) :=
      (Option.some.inj (congrArg Prod.fst hr)).symm
    rw [hp]
    simp [List.length_take]
  | cons e evs =>
    cases e with
    | tmo => simp [recv] at hr
    | chunk c =>
      simp only [recv] at hr
      have hp : p = data.take (min m (min c data.length)) :=
        (Option.some.inj (congrArg Prod.fst hr)).symm
      rw [hp]
      simp [List.length_take]

lemma recvallMainGo_ok :
    ∀ (fuel : Nat) (s : Sock) (n : Nat) (acc : List Nat) (t : Nat),
      GoodEvents s.events → t < 10 → n ≤ acc.length + s.data.length →
      n - acc.length < fuel →
      ∃ evs1, evs1 <:+ s.events ∧
        recvallMainGo fuel s n acc t =
          (RecvRes.ok (acc ++ s.data.take (n - acc.length)),
           ⟨s.data.drop (n - acc.length), evs1⟩) := by
  intro fuel
  induction fuel with
  | zero =>
    intro s n acc t _ _ _ hf
    omega
  | succ fuel ih =>
    intro s n acc t hg ht hle hf
    by_cases hacc : acc.length < n
    · rcases hrec : recv s (min (n - acc.length) 8192) with ⟨op, s1⟩
      cases op with
      | none => exact (recv_not_none hg hrec).elim
      | some p =>
        obtain ⟨k, hkm, hkd, hp, hd1, hsuf1, hkpos⟩ := recv_some_spec hg hrec
        have hm : 0 < min (n - acc.length) 8192 := by omega
        have hdpos : 0 < s.data.length := by omega
        have hk : 0 < k := hkpos hm hdpos
        have hplen : p.length = k := by
          rw [hp, List.length_take]
          omega
        have hpne : p.isEmpty = false := by
          cases p with
          | nil => simp at hplen; omega
          | cons a l => rfl
        have hg1 : GoodEvents s1.events := goodEvents_suffix hsuf1 hg
        have hle1 : n ≤ (acc ++ p).length + s1.data.length := by
          rw [List.length_append, hplen, hd1, List.length_drop]
          omega
        have hf1 : n - (acc ++ p).length < fuel := by
          rw [List.length_append, hplen]
          omega
        obtain ⟨evs1, hsuf2, heq⟩ := ih s1 n (acc ++ p) t hg1 ht hle1 hf1
        refine ⟨evs1, hsuf2.trans hsuf1, ?_⟩
        have hstep : recvallMainGo (fuel + 1) s n acc t
            = recvallMainGo fuel s1 n (acc ++ p) t := by
          simp only [recvallMainGo]
          rw [if_pos (And.intro hacc ht), hrec]
          simp [hpne]
        rw [hstep, heq]
        have hkle : k ≤ n - acc.length := by omega
        have hlen2 : n - (acc ++ p).length = n - acc.length - k := by
          rw [List.length_append, hplen]
          omega
        rw [hlen2, hp, hd1]
        have esum : k + (n - acc.length - k) = n - acc.length := by omega
        have e1 : (acc ++ s.data.take k)
              ++ (s.data.drop k).take (n - acc.length - k)
            = acc ++ s.data.take (n - acc.length) := by
          rw [List.append_assoc, ← List.take_add, esum]
        have e4 : (s.data.drop k).drop (n - acc.length - k)
            = s.data.drop (n - acc.length) := by
          rw [List.drop_drop, esum]
        rw [e1, e4]
    · have h0 : n - acc.length = 0 := by omega
      refine ⟨s.events, List.suffix_refl _, ?_⟩
      have hcond : ¬(acc.length < n ∧ t < 10) := fun h => hacc h.1
      simp [recvallMainGo, hcond, hacc, h0]
lemma recvallMainGo_eof :
    ∀ (fuel : Nat) (s : Sock) (n : Nat) (acc : List Nat) (t : Nat),
      GoodEvents s.events → t < 10 → acc.length + s.data.length < n →
      s.data.length < fuel →
      ∃ evs1, evs1 <:+ s.events ∧
        recvallMainGo fuel s n acc t = (RecvRes.eof, ⟨[], evs1⟩) := by
  intro fuel
  induction fuel with
  | zero =>
    intro s n acc t _ _ _ hf
    omega
  | succ fuel ih =>
    intro s n acc t hg ht hlt hf
    have hacc : acc.length < n := by omega
    rcases hrec : recv s (min (n - acc.length) 8192) with ⟨op, s1⟩
    cases op with
    | none => exact (recv_not_none hg hrec).elim
    | some p =>
      obtain ⟨k, hkm, hkd, hp, hd1, hsuf1, hkpos⟩ := recv_some_spec hg hrec
      by_cases hdat : 0 < s.data.length
      · have hm : 0 < min (n - acc.length) 8192 := by omega
        have hk : 0 < k := hkpos hm hdat
        have hplen : p.length = k := by
          rw [hp, List.length_take]
          omega
        have hpne : p.isEmpty = false := by
          cases p with
          | nil => simp at hplen; omega
          | cons a l => rfl
        have hg1 : GoodEvents s1.events := goodEvents_suffix hsuf1 hg
        have hlt1 : (acc ++ p).length + s1.data.length < n := by
          rw [List.length_append, hplen, hd1, List.length_drop]
          omega
        have hf1 : s1.data.length < fuel := by
          rw [hd1, List.length_drop]
          omega
        obtain ⟨evs1, hsuf2, heq⟩ := ih s1 n (acc ++ p) t hg1 ht hlt1 hf1
        refine ⟨evs1, hsuf2.trans hsuf1, ?_⟩
        have hstep : recvallMainGo (fuel + 1) s n acc t
            = recvallMainGo fuel s1 n (acc ++ p) t := by
          simp only [recvallMainGo]
          rw [if_pos (And.intro hacc ht), hrec]
          simp [hpne]
        rw [hstep, heq]
      · have hd0 : s.data.length = 0 := by omega
        have hpe : p = [] := by
          rw [hp]
          have : s.data = [] := List.length_eq_zero.mp hd0
          simp [this]
        have hs1d : s1.data = [] := by
          rw [hd1]
          have : s.data = [] := List.length_eq_zero.mp hd0
          simp [this]
        refine ⟨s1.events, hsuf1, ?_⟩
        simp only [recvallMainGo]
        rw [if_pos (And.intro hacc ht), hrec]
        subst hpe
        simp
        rw [← hs1d]

/-- recvall of stream_server.py on a well-formed delivery schedule: when at
least n bytes remain it returns exactly the first n bytes of the stream and
consumes them; when fewer than n bytes remain it returns None (EOF), never
a short read. -/
lemma recvallMain_ok (s : Sock) (n : Nat) (hg : GoodEvents s.events)
    (hn : n ≤ s.data.length) :
    ∃ evs1, evs1 <:+ s.events ∧ GoodEvents evs1 ∧
      recvallMain s n = (RecvRes.ok (s.data.take n), ⟨s.data.drop n, evs1⟩) := by
  obtain ⟨evs1, hsuf, heq⟩ :=
    recvallMainGo_ok (n + 3) s n [] 0 hg (by omega) (by simpa using hn)
      (by omega)
  refine ⟨evs1, hsuf, goodEvents_suffix hsuf hg, ?_⟩
  rw [recvallMain, heq]
  simp

lemma recvallMain_eof (s : Sock) (n : Nat) (hg : GoodEvents s.events)
    (hn : s.data.length < n) :
    ∃ evs1, evs1 <:+ s.events ∧ GoodEvents evs1 ∧
      recvallMain s n = (RecvRes.eof, ⟨[], evs1⟩) := by
  obtain ⟨evs1, hsuf, heq⟩ :=
    recvallMainGo_eof (n + 3) s n [] 0 hg (by omega) (by simpa using hn)
      (by omega)
  exact ⟨evs1, hsuf, goodEvents_suffix hsuf hg, heq⟩

lemma recvallBackupGo_ok :
    ∀ (fuel : Nat) (s : Sock) (n : Nat) (acc : List Nat),
      GoodEvents s.events → n ≤ acc.length + s.data.length →
      n - acc.length < fuel →
      ∃ evs1, evs1 <:+ s.events ∧
        recvallBackupGo fuel s n acc =
          (RecvRes.ok (acc ++ s.data.take (n - acc.length)),
           ⟨s.data.drop (n - acc.length), evs1⟩) := by
  intro fuel
  induction fuel with
  | zero =>
    intro s n acc _ _ hf
    omega
  | succ fuel ih =>
    intro s n acc hg hle hf
    by_cases hacc : acc.length < n
    · rcases hrec : recv s (n - acc.length) with ⟨op, s1⟩
      cases op with
      | none => exact (recv_not_none hg hrec).elim
      | some p =>
        obtain ⟨k, hkm, hkd, hp, hd1, hsuf1, hkpos⟩ := recv_some_spec hg hrec
        have hm : 0 < n - acc.length := by omega
        have hdpos : 0 < s.data.length := by omega
        have hk : 0 < k := hkpos hm hdpos
        have hplen : p.length = k := by
          rw [hp, List.length_take]
          omega
        have hpne : p.isEmpty = false := by
          cases p with
          | nil => simp at hplen; omega
          | cons a l => rfl
        have hg1 : GoodEvents s1.events := goodEvents_suffix hsuf1 hg
        have hle1 : n ≤ (acc ++ p).length + s1.data.length := by
          rw [List.length_append, hplen, hd1, List.length_drop]
          omega
        have hf1 : n - (acc ++ p).length < fuel := by
          rw [List.length_append, hplen]
          omega
        obtain ⟨evs1, hsuf2, heq⟩ := ih s1 n (acc ++ p) hg1 hle1 hf1
        refine ⟨evs1, hsuf2.trans hsuf1, ?_⟩
        have hstep : recvallBackupGo (fuel + 1) s n acc
            = recvallBackupGo fuel s1 n (acc ++ p) := by
          simp only [recvallBackupGo]
          rw [if_pos hacc, hrec]
          simp [hpne]
        rw [hstep, heq]
        have hkle : k ≤ n - acc.length := by omega
        have hlen2 : n - (acc ++ p).length = n - acc.length - k := by
          rw [List.length_append, hplen]
          omega
        rw [hlen2, hp, hd1]
        have esum : k + (n - acc.length - k) = n - acc.length := by omega
        have e1 : (acc ++ s.data.take k)
              ++ (s.data.drop k).take (n - acc.length - k)
            = acc ++ s.data.take (n - acc.length) := by
          rw [List.append_assoc, ← List.take_add, esum]
        have e4 : (s.data.drop k).drop (n - acc.length - k)
            = s.data.drop (n - acc.length) := by
          rw [List.drop_drop, esum]
        rw [e1, e4]
    · have h0 : n - acc.length = 0 := by omega
      refine ⟨s.events, List.suffix_refl _, ?_⟩
      simp [recvallBackupGo, hacc, h0]

lemma recvallBackupGo_eof :
    ∀ (fuel : Nat) (s : Sock) (n : Nat) (acc : List Nat),
      GoodEvents s.events → acc.length + s.data.length < n →
      s.data.length < fuel →
      ∃ evs1, evs1 <:+ s.events ∧
        recvallBackupGo fuel s n acc = (RecvRes.eof, ⟨[], evs1⟩) := by
  intro fuel
  induction fuel with
  | zero =>
    intro s n acc _ _ hf
    omega
  | succ fuel ih =>
    intro s n acc hg hlt hf
    have hacc : acc.length < n := by omega
    rcases hrec : recv s (n - acc.length) with ⟨op, s1⟩
    cases op with
    | none => exact (recv_not_none hg hrec).elim
    | some p =>
      obtain ⟨k, hkm, hkd, hp, hd1, hsuf1, hkpos⟩ := recv_some_spec hg hrec
      by_cases hdat : 0 < s.data.length
      · have hm : 0 < n - acc.length := by omega
        have hk : 0 < k := hkpos hm hdat
        have hplen : p.length = k := by
          rw [hp, List.length_take]
          omega
        have hpne : p.isEmpty = false := by
          cases p with
          | nil => simp at hplen; omega
          | cons a l => rfl
        have hg1 : GoodEvents s1.events := goodEvents_suffix hsuf1 hg
        have hlt1 : (acc ++ p).length + s1.data.length < n := by
          rw [List.length_append, hplen, hd1, List.length_drop]
          omega
        have hf1 : s1.data.length < fuel := by
          rw [hd1, List.length_drop]
          omega
        obtain ⟨evs1, hsuf2, heq⟩ := ih s1 n (acc ++ p) hg1 hlt1 hf1
        refine ⟨evs1, hsuf2.trans hsuf1, ?_⟩
        have hstep : recvallBackupGo (fuel + 1) s n acc
            = recvallBackupGo fuel s1 n (acc ++ p) := by
          simp only [recvallBackupGo]
          rw [if_pos hacc, hrec]
          simp [hpne]
        rw [hstep, heq]
      · have hd0 : s.data.length = 0 := by omega
        have hpe : p = [] := by
          rw [hp]
          have : s.data = [] := List.length_eq_zero.mp hd0
          simp [this]
        have hs1d : s1.data = [] := by
          rw [hd1]
          have : s.data = [] := List.length_eq_zero.mp hd0
          simp [this]
        refine ⟨s1.events, hsuf1, ?_⟩
        simp only [recvallBackupGo]
        rw [if_pos hacc, hrec]
        subst hpe
        simp
        rw [← hs1d]

/-- recvall of stream_server_working_backup.py on a well-formed delivery
schedule: the same exact-n or EOF behaviour as the stream_server.py
variant. -/
lemma recvallBackup_ok (s : Sock) (n : Nat) (hg : GoodEvents s.events)
    (hn : n ≤ s.data.length) :
    ∃ evs1, evs1 <:+ s.events ∧ GoodEvents evs1 ∧
      recvallBackup s n = (RecvRes.ok (s.data.take n), ⟨s.data.drop n, evs1⟩) := by
  obtain ⟨evs1, hsuf, heq⟩ :=
    recvallBackupGo_ok (n + 1) s n [] hg (by simpa using hn) (by omega)
  refine ⟨evs1, hsuf, goodEvents_suffix hsuf hg, ?_⟩
  rw [recvallBackup, heq]
  simp

lemma recvallBackup_eof (s : Sock) (n : Nat) (hg : GoodEvents s.events)
    (hn : s.data.length < n) :
    ∃ evs1, evs1 <:+ s.events ∧ GoodEvents evs1 ∧
      recvallBackup s n = (RecvRes.eof, ⟨[], evs1⟩) := by
  obtain ⟨evs1, hsuf, heq⟩ :=
    recvallBackupGo_eof (n + 1) s n [] hg (by simpa using hn) (by omega)
  exact ⟨evs1, hsuf, goodEvents_suffix hsuf hg, heq⟩

lemma isEmpty_false_of_length_pos {l : List Nat} (h : 0 < l.length) :
    l.isEmpty = false := by
  cases l with
  | nil => simp at h
  | cons a t => rfl

lemma deframePure_short (checkMax : Bool) (data : List Nat)
    (h : data.length < 4) :
    deframePure checkMax data = ([], Stop.connLost) := by
  rw [deframePure, dif_pos h]

lemma deframePure_ov (checkMax : Bool) (data : List Nat)
    (h4 : ¬ data.length < 4)
    (hov : checkMax = true ∧ 10000000 < beDecode (data.take 4)) :
    deframePure checkMax data = ([], Stop.oversize) := by
  rw [deframePure, dif_neg h4]
  simp only [if_pos hov]

lemma deframePure_lost (checkMax : Bool) (data : List Nat)
    (h4 : ¬ data.length < 4)
    (hov : ¬ (checkMax = true ∧ 10000000 < beDecode (data.take 4)))
    (hcase : data.length < 4 + beDecode (data.take 4)
      ∨ beDecode (data.take 4) = 0) :
    deframePure checkMax data = ([], Stop.connLost) := by
  rw [deframePure, dif_neg h4]
  simp only [if_neg hov]
  rcases hcase with hlt | h0
  · simp only [if_pos hlt]
  · by_cases hlt : data.length < 4 + beDecode (data.take 4)
    · simp only [if_pos hlt]
    · simp only [if_neg hlt, if_pos h0]

lemma deframePure_step (checkMax : Bool) (data : List Nat)
    (h4 : ¬ data.length < 4)
    (hov : ¬ (checkMax = true ∧ 10000000 < beDecode (data.take 4)))
    (hrem : ¬ data.length < 4 + beDecode (data.take 4))
    (hfs0 : ¬ beDecode (data.take 4) = 0) :
    deframePure checkMax data
      = ((data.drop 4).take (beDecode (data.take 4))
           :: (deframePure checkMax (data.drop (4 + beDecode (data.take 4)))).1,
         (deframePure checkMax (data.drop (4 + beDecode (data.take 4)))).2) := by
  rw [deframePure, dif_neg h4]
  simp only [if_neg hov, if_neg hrem, if_neg hfs0]

lemma take4_of_msg (n : Nat) (rest : List Nat) :
    (beEncode4 n ++ rest).take 4 = beEncode4 n :=
  List.take_left' (length_beEncode4 n)

lemma drop4_of_msg (n : Nat) (rest : List Nat) :
    (beEncode4 n ++ rest).drop 4 = rest :=
  List.drop_left' (length_beEncode4 n)

lemma length_of_msg (n : Nat) (rest : List Nat) :
    (beEncode4 n ++ rest).length = 4 + rest.length := by
  rw [List.length_append, length_beEncode4]

/-- A well-formed message of positive, in-bound length n followed by more
stream: the pure deframer yields its payload as one frame and continues on
the remaining stream. -/
lemma deframePure_msg (checkMax : Bool) (n : Nat) (payload rest : List Nat)
    (hlen : payload.length = n) (hpos : 0 < n) (h32 : n < 4294967296)
    (hmax : checkMax = true → n ≤ 10000000) :
    deframePure checkMax (beEncode4 n ++ (payload ++ rest))
      = (payload :: (deframePure checkMax rest).1,
         (deframePure checkMax rest).2) := by
  have hlenall := length_of_msg n (payload ++ rest)
  have htk := take4_of_msg n (payload ++ rest)
  have hdr := drop4_of_msg n (payload ++ rest)
  have hfs : beDecode ((beEncode4 n ++ (payload ++ rest)).take 4) = n := by
    rw [htk, beDecode_beEncode4 n h32]
  rw [deframePure_step checkMax _ (by rw [hlenall]; omega)
      (fun h => by rw [hfs] at h; have := hmax h.1; omega)
      (by rw [hfs, hlenall, List.length_append, hlen]; omega)
      (by rw [hfs]; omega)]
  rw [hfs, hdr]
  have hpay : (payload ++ rest).take n = payload := List.take_left' hlen
  have hrest : (beEncode4 n ++ (payload ++ rest)).drop (4 + n) = rest := by
    rw [← List.drop_drop, hdr]
    exact List.drop_left' hlen
  rw [hpay, hrest]

/-- An oversized length prefix: the checking deframer aborts with the
oversize protocol error, pushing nothing. -/
lemma deframePure_oversize (n : Nat) (rest : List Nat)
    (h32 : n < 4294967296) (hbig : 10000000 < n) :
    deframePure true (beEncode4 n ++ rest) = ([], Stop.oversize) := by
  have hfs : beDecode ((beEncode4 n ++ rest).take 4) = n := by
    rw [take4_of_msg, beDecode_beEncode4 n h32]
  exact deframePure_ov true _ (by rw [length_of_msg]; omega)
    ⟨rfl, by rw [hfs]; omega⟩

/-- A zero length prefix: the read of the zero-byte payload comes back
empty (falsy), so the deframer reports connection loss and pushes
nothing. -/
lemma deframePure_zero (checkMax : Bool) (rest : List Nat) :
    deframePure checkMax (beEncode4 0 ++ rest) = ([], Stop.connLost) := by
  have hfs : beDecode ((beEncode4 0 ++ rest).take 4) = 0 := by
    rw [take4_of_msg]
    rfl
  exact deframePure_lost checkMax _ (by rw [length_of_msg]; omega)
    (fun h => by rw [hfs] at h; omega) (Or.inr hfs)

lemma deframePure_nil (checkMax : Bool) :
    deframePure checkMax [] = ([], Stop.connLost) :=
  deframePure_short checkMax [] (by simp)

lemma receiveFramesMainGo_eq :
    ∀ (fuel : Nat) (s : Sock), GoodEvents s.events → s.data.length < fuel →
      receiveFramesMainGo fuel s = deframePure true s.data := by
  intro fuel
  induction fuel with
  | zero =>
    intro s _ hf
    omega
  | succ fuel ih =>
    intro s hg hf
    by_cases h4 : 4 ≤ s.data.length
    · obtain ⟨evs1, hsuf1, hg1, heq1⟩ := recvallMain_ok s 4 hg h4
      have hsz : (s.data.take 4).isEmpty = false :=
        isEmpty_false_of_length_pos (by rw [List.length_take]; omega)
      by_cases hbig : 10000000 < beDecode (s.data.take 4)
      · simp only [receiveFramesMainGo, heq1, hsz, Bool.false_eq_true,
          if_false, if_pos hbig]
        rw [deframePure_ov true s.data (by omega) ⟨rfl, hbig⟩]
      · by_cases hfs0 : beDecode (s.data.take 4) = 0
        · obtain ⟨evs2, hsuf2, hg2, heq2⟩ :=
            recvallMain_ok ⟨s.data.drop 4, evs1⟩ (beDecode (s.data.take 4))
              hg1 (by simp [List.length_drop]; omega)
          simp only [receiveFramesMainGo, heq1, hsz, Bool.false_eq_true,
            if_false, if_neg hbig, heq2]
          rw [show ((⟨s.data.drop 4, evs1⟩ : Sock).data.take
              (beDecode (s.data.take 4))).isEmpty = true from by
            rw [hfs0]
            rfl]
          simp only [if_true]
          rw [deframePure_lost true s.data (by omega)
            (fun h => hbig h.2) (Or.inr hfs0)]
        · by_cases hrem : beDecode (s.data.take 4) ≤ s.data.length - 4
          · obtain ⟨evs2, hsuf2, hg2, heq2⟩ :=
              recvallMain_ok ⟨s.data.drop 4, evs1⟩ (beDecode (s.data.take 4))
                hg1 (by simp [List.length_drop]; omega)
            have hfd : ((⟨s.data.drop 4, evs1⟩ : Sock).data.take
                (beDecode (s.data.take 4))).isEmpty = false := by
              apply isEmpty_false_of_length_pos
              simp [List.length_take, List.length_drop]
              omega
            have hrec := ih ⟨(⟨s.data.drop 4, evs1⟩ : Sock).data.drop
                (beDecode (s.data.take 4)), evs2⟩ hg2 (by
              simp [List.length_drop]
              omega)
            simp only [receiveFramesMainGo, heq1, hsz, Bool.false_eq_true,
              if_false, if_neg hbig, heq2, hfd, hrec]
            rw [deframePure_step true s.data (by omega) (fun h => hbig h.2)
              (by omega) hfs0]
            simp only [List.drop_drop]
          · obtain ⟨evs2, hsuf2, hg2, heq2⟩ :=
              recvallMain_eof ⟨s.data.drop 4, evs1⟩ (beDecode (s.data.take 4))
                hg1 (by simp [List.length_drop]; omega)
            simp only [receiveFramesMainGo, heq1, hsz, Bool.false_eq_true,
              if_false, if_neg hbig, heq2]
            rw [deframePure_lost true s.data (by omega) (fun h => hbig h.2)
              (Or.inl (by omega))]
    · obtain ⟨evs1, hsuf1, hg1, heq1⟩ := recvallMain_eof s 4 hg (by omega)
      simp only [receiveFramesMainGo, heq1]
      rw [deframePure_short true s.data (by omega)]

lemma receiveFramesMain_eq (s : Sock) (hg : GoodEvents s.events) :
    receiveFramesMain s = deframePure true s.data :=
  receiveFramesMainGo_eq (s.data.length + 1) s hg (Nat.lt_succ_self _)

lemma receiveFramesBackupGo_eq :
    ∀ (fuel : Nat) (s : Sock), GoodEvents s.events → s.data.length < fuel →
      receiveFramesBackupGo fuel s = deframePure false s.data := by
  intro fuel
  induction fuel with
  | zero =>
    intro s _ hf
    omega
  | succ fuel ih =>
    intro s hg hf
    have hovf : ¬ (false = true ∧ 10000000 < beDecode (s.data.take 4)) :=
      fun h => by cases h.1
    by_cases h4 : 4 ≤ s.data.length
    · obtain ⟨evs1, hsuf1, hg1, heq1⟩ := recvallBackup_ok s 4 hg h4
      have hsz : (s.data.take 4).isEmpty = false :=
        isEmpty_false_of_length_pos (by rw [List.length_take]; omega)
      by_cases hfs0 : beDecode (s.data.take 4) = 0
      · obtain ⟨evs2, hsuf2, hg2, heq2⟩ :=
          recvallBackup_ok ⟨s.data.drop 4, evs1⟩ (beDecode (s.data.take 4))
            hg1 (by simp [List.length_drop]; omega)
        simp only [receiveFramesBackupGo, heq1, hsz, Bool.false_eq_true,
          if_false, heq2]
        rw [show ((⟨s.data.drop 4, evs1⟩ : Sock).data.take
            (beDecode (s.data.take 4))).isEmpty = true from by
          rw [hfs0]
          rfl]
        simp only [if_true]
        rw [deframePure_lost false s.data (by omega) hovf (Or.inr hfs0)]
      · by_cases hrem : beDecode (s.data.take 4) ≤ s.data.length - 4
        · obtain ⟨evs2, hsuf2, hg2, heq2⟩ :=
            recvallBackup_ok ⟨s.data.drop 4, evs1⟩ (beDecode (s.data.take 4))
              hg1 (by simp [List.length_drop]; omega)
          have hfd : ((⟨s.data.drop 4, evs1⟩ : Sock).data.take
              (beDecode (s.data.take 4))).isEmpty = false := by
            apply isEmpty_false_of_length_pos
            simp [List.length_take, List.length_drop]
            omega
          have hrec := ih ⟨(⟨s.data.drop 4, evs1⟩ : Sock).data.drop
              (beDecode (s.data.take 4)), evs2⟩ hg2 (by
            simp [List.length_drop]
            omega)
          simp only [receiveFramesBackupGo, heq1, hsz, Bool.false_eq_true,
            if_false, heq2, hfd, hrec]
          rw [deframePure_step false s.data (by omega) hovf (by omega) hfs0]
          simp only [List.drop_drop]
        · obtain ⟨evs2, hsuf2, hg2, heq2⟩ :=
            recvallBackup_eof ⟨s.data.drop 4, evs1⟩ (beDecode (s.data.take 4))
              hg1 (by simp [List.length_drop]; omega)
          simp only [receiveFramesBackupGo, heq1, hsz, Bool.false_eq_true,
            if_false, heq2]
          rw [deframePure_lost false s.data (by omega) hovf
            (Or.inl (by omega))]
    · obtain ⟨evs1, hsuf1, hg1, heq1⟩ := recvallBackup_eof s 4 hg (by omega)
      simp only [receiveFramesBackupGo, heq1]
      rw [deframePure_short false s.data (by omega)]

lemma receiveFramesBackup_eq (s : Sock) (hg : GoodEvents s.events) :
    receiveFramesBackup s = deframePure false s.data :=
  receiveFramesBackupGo_eq (s.data.length + 1) s hg (Nat.lt_succ_self _)

lemma recvallMainGo_ok_length :
    ∀ (fuel : Nat) (s : Sock) (n : Nat) (acc : List Nat) (t : Nat)
      (r : List Nat) (s1 : Sock), acc.length ≤ n →
      recvallMainGo fuel s n acc t = (RecvRes.ok r, s1) → r.length = n := by
  intro fuel
  induction fuel with
  | zero =>
    intro s n acc t r s1 _ h
    simp [recvallMainGo] at h
  | succ fuel ih =>
    intro s n acc t r s1 hle h
    simp only [recvallMainGo] at h
    by_cases hc : acc.length < n ∧ t < 10
    · rw [if_pos hc] at h
      split at h
      case _ s2 hrec => exact ih s2 n acc (t + 5) r s1 hle h
      case _ p s2 hrec =>
        by_cases hpe : p.isEmpty = true
        · rw [if_pos hpe] at h
          simp at h
        · rw [if_neg hpe] at h
          have hpl : p.length ≤ min (n - acc.length) 8192 :=
            recv_some_length hrec
          refine ih s2 n (acc ++ p) t r s1 ?_ h
          rw [List.length_append]
          omega
    · rw [if_neg hc] at h
      by_cases hacc : acc.length < n
      · rw [if_pos hacc] at h
        simp at h
      · rw [if_neg hacc] at h
        have hr : acc = r := by
          have := congrArg Prod.fst h
          simpa using this
        rw [← hr]
        omega

lemma recvallBackupGo_ok_length :
    ∀ (fuel : Nat) (s : Sock) (n : Nat) (acc : List Nat)
      (r : List Nat) (s1 : Sock), acc.length ≤ n →
      recvallBackupGo fuel s n acc = (RecvRes.ok r, s1) → r.length = n := by
  intro fuel
  induction fuel with
  | zero =>
    intro s n acc r s1 _ h
    simp [recvallBackupGo] at h
  | succ fuel ih =>
    intro s n acc r s1 hle h
    simp only [recvallBackupGo] at h
    by_cases hacc : acc.length < n
    · rw [if_pos hacc] at h
      split at h
      case _ s2 hrec => simp at h
      case _ p s2 hrec =>
        by_cases hpe : p.isEmpty = true
        · rw [if_pos hpe] at h
          simp at h
        · rw [if_neg hpe] at h
          have hpl : p.length ≤ n - acc.length := recv_some_length hrec
          refine ih s2 n (acc ++ p) r s1 ?_ h
          rw [List.length_append]
          omega
    · rw [if_neg hacc] at h
      have hr : acc = r := by
        have := congrArg Prod.fst h
        simpa using this
      rw [← hr]
      omega

lemma recvallMain_ok_length (s : Sock) (n : Nat) (r : List Nat) (s1 : Sock)
    (h : recvallMain s n = (RecvRes.ok r, s1)) : r.length = n :=
  recvallMainGo_ok_length (n + 3) s n [] 0 r s1 (by simp) h

lemma recvallBackup_ok_length (s : Sock) (n : Nat) (r : List Nat) (s1 : Sock)
    (h : recvallBackup s n = (RecvRes.ok r, s1)) : r.length = n :=
  recvallBackupGo_ok_length (n + 1) s n [] r s1 (by simp) h

/-- Two consecutive socket timeouts exhaust the 10 s window of recvall in
stream_server.py: the loop exits with fewer than n bytes and recvall raises
socket.timeout instead of returning short data. -/
lemma recvallMain_two_timeouts (data : List Nat) (evs : List Ev) (n : Nat)
    (hn : 0 < n) :
    recvallMain ⟨data, Ev.tmo :: Ev.tmo :: evs⟩ n
      = (RecvRes.timedOut, ⟨data, evs⟩) := by
  rw [recvallMain, show n + 3 = (n + 2) + 1 from rfl]
  simp [recvallMainGo, recv, hn]

/-- Factoring out oversize: on a stream where the checking deframer never
hits the 10 MB bound, checking and non-checking deframing agree exactly. -/
lemma deframePure_eq_no_oversize :
    ∀ (k : Nat) (data : List Nat), data.length ≤ k →
      (deframePure true data).2 ≠ Stop.oversize →
      deframePure true data = deframePure false data := by
  intro k
  induction k with
  | zero =>
    intro data hk hno
    have h4 : data.length < 4 := by omega
    rw [deframePure_short true data h4, deframePure_short false data h4]
  | succ k ih =>
    intro data hk hno
    have hovf : ¬ (false = true ∧ 10000000 < beDecode (data.take 4)) :=
      fun h => by cases h.1
    by_cases h4 : data.length < 4
    · rw [deframePure_short true data h4, deframePure_short false data h4]
    · by_cases hbig : 10000000 < beDecode (data.take 4)
      · exact absurd (by
          rw [deframePure_ov true data h4 ⟨rfl, hbig⟩]) hno
      · by_cases hcase : data.length < 4 + beDecode (data.take 4)
          ∨ beDecode (data.take 4) = 0
        · rw [deframePure_lost true data h4 (fun h => hbig h.2) hcase,
            deframePure_lost false data h4 hovf hcase]
        · push_neg at hcase
          have hs1 := deframePure_step true data h4 (fun h => hbig h.2)
            (by omega) (by omega)
          have hs2 := deframePure_step false data h4 hovf
            (by omega) (by omega)
          have hrec : deframePure true (data.drop (4 + beDecode (data.take 4)))
              = deframePure false (data.drop (4 + beDecode (data.take 4))) := by
            apply ih
            · rw [List.length_drop]
              omega
            · intro hcontra
              apply hno
              rw [hs1]
              exact hcontra
          rw [hs1, hs2, hrec]

/-- C1: every sequence of pushes into the capacity-10 queue leaves exactly
the last min(k, 10) pushed frames in push order; the size never exceeds 10;
and a push onto a full queue first removes the single oldest entry and then
appends the new frame.  (The push operation is a total function: it never
blocks and never fails.) -/
theorem claim1_drop_oldest (l : List (List Nat)) :
    List.foldl (queuePush 10) [] l = l.drop (l.length - 10)
    ∧ (List.foldl (queuePush 10) [] l).length = min l.length 10
    ∧ ∀ (q : List (List Nat)) (x : List Nat), q.length = 10 →
        queuePush 10 q x = q.drop 1 ++ [x] := by
  refine ⟨foldl_queuePush_nil 10 (by norm_num) l, ?_, ?_⟩
  · rw [foldl_queuePush_nil 10 (by norm_num) l]
    simp [List.length_drop]
    omega
  · intro q x hq
    simp [queuePush, hq]

/-- C1 witness: a push onto a concrete full queue of ten frames drops the
oldest frame and appends the new one, via claim1_drop_oldest. -/
theorem claim1_drop_oldest_witness :
    queuePush 10 [[0], [1], [2], [3], [4], [5], [6], [7], [8], [9]] [10] =
      [[1], [2], [3], [4], [5], [6], [7], [8], [9], [10]] := by
  have h := (claim1_drop_oldest []).2.2
    [[0], [1], [2], [3], [4], [5], [6], [7], [8], [9]] [10] (by decide)
  exact h.trans (by decide)

/-- C7: tryPop on an empty buffer returns none (and there is no buffer
mutation to undo); repeated tryPop calls on a static buffer yield the
buffered frames in push order, each exactly once, until empty; and with
capacity 3, pushing a, b, c, d in order leaves [b, c, d], whose successive
pops yield b, then c, then d, then empty. -/
theorem claim7_try_pop (a b c d : List Nat) :
    tryPop (α := List Nat) [] = none
    ∧ (∀ q : List (List Nat), drainList q = q)
    ∧ List.foldl (queuePush 3) [] [a, b, c, d] = [b, c, d]
    ∧ drainList [b, c, d] = [b, c, d]
    ∧ tryPop [b, c, d] = some (b, [c, d])
    ∧ tryPop [c, d] = some (c, [d])
    ∧ tryPop [d] = some (d, [])
    ∧ tryPop ([] : List (List Nat)) = none := by
  refine ⟨rfl, drainList_eq, ?_, drainList_eq _, rfl, rfl, rfl, rfl⟩
  have h := foldl_queuePush_nil 3 (by norm_num) [a, b, c, d]
  simpa using h

/-- C9: the streaming consumer step pops a buffered frame and emits exactly
the chunk --frame CRLF Content-Type: image/jpeg CRLF CRLF frame-bytes CRLF;
on an empty buffer it emits nothing and idles 10 ms before retrying; and
the surrounding while-True loop gives every state a successor, so the
generated sequence never terminates on its own. -/
theorem claim9_generate (q : List (List Nat)) (f : List Nat) :
    generateStep (f :: q) = (q, some (mjpegWrap f), none)
    ∧ generateStep [] = ([], none, some 10)
    ∧ mjpegWrap f =
        strBytes ("--frame") ++ [13, 10]
          ++ strBytes ("Content-Type: image/jpeg") ++ [13, 10, 13, 10]
          ++ f ++ [13, 10] := by
  refine ⟨rfl, rfl, ?_⟩
  have h1 : strBytes ("--frame\r\n") = strBytes ("--frame") ++ [13, 10] := by
    decide
  have h2 : strBytes ("Content-Type: image/jpeg\r\n\r\n") =
      strBytes ("Content-Type: image/jpeg") ++ [13, 10, 13, 10] := by
    decide
  have h3 : strBytes ("\r\n") = [13, 10] := by decide
  rw [mjpegWrap, h1, h2, h3]
  simp [List.append_assoc]

/-- C2 counterexample: for byte length N = 0 the claim fails.  The
well-formed message consisting of the length prefix 0 and an empty payload
is not reconstructed into one pushed Frame: recvall returns an empty
(falsy) byte sequence, the read loop raises, and nothing is pushed. -/
theorem claim2_counterexample :
    receiveFramesMain ⟨beEncode4 0, []⟩ = ([], Stop.connLost)
    ∧ (receiveFramesMain ⟨beEncode4 0, []⟩).1 ≠ [([] : List Nat)] := by
  decide

/-- C2 (amended: the byte length must satisfy 1 ≤ N; N = 0 aborts the
connection instead): for every N with 1 ≤ N ≤ 10,000,000 and every payload
of exactly N bytes, the message of the big-endian uint32 N followed by the
payload, delivered split across an arbitrary schedule of partial reads
(including one byte at a time), is reconstructed by the stream_server.py
read loop into exactly one Frame bit-identical to the payload, pushed
exactly once; the subsequent EOF ends the connection. -/
theorem claim2_roundtrip (n : Nat) (payload : List Nat) (evs : List Ev)
    (hg : GoodEvents evs) (hlen : payload.length = n)
    (h1 : 1 ≤ n) (hmax : n ≤ 10000000) :
    receiveFramesMain ⟨beEncode4 n ++ payload, evs⟩
      = ([payload], Stop.connLost) := by
  rw [receiveFramesMain_eq ⟨beEncode4 n ++ payload, evs⟩ hg]
  rw [show beEncode4 n ++ payload = beEncode4 n ++ (payload ++ []) from by
    simp]
  rw [deframePure_msg true n payload [] hlen (by omega) (by omega)
    (fun _ => hmax)]
  rw [deframePure_nil]

/-- C2 witness: the spec's concrete scenario, the HELLO message delivered
one byte at a time, reconstructed exactly once. -/
theorem claim2_roundtrip_witness :
    receiveFramesMain ⟨beEncode4 5 ++ [72, 69, 76, 76, 79],
        List.replicate 9 (Ev.chunk 1)⟩
      = ([[72, 69, 76, 76, 79]], Stop.connLost) :=
  claim2_roundtrip 5 [72, 69, 76, 76, 79] (List.replicate 9 (Ev.chunk 1))
    (by decide) (by decide) (by decide) (by decide)

/-- C3 counterexample: the claim asserts the oversized-length abort holds
in both source files, but stream_server_working_backup.py has no maximum
check: on a stream with length prefix 10,000,001 followed by that many
bytes it pushes the oversized frame instead of aborting without a push. -/
theorem claim3_counterexample :
    receiveFramesBackup
        ⟨beEncode4 10000001 ++ List.replicate 10000001 3, []⟩
      = ([List.replicate 10000001 3], Stop.connLost) := by
  have h1 := receiveFramesBackup_eq
    ⟨beEncode4 10000001 ++ List.replicate 10000001 3, []⟩ goodEvents_nil
  have h2 : beEncode4 10000001 ++ List.replicate 10000001 3
      = beEncode4 10000001 ++ (List.replicate 10000001 3 ++ []) := by
    rw [List.append_nil]
  have h3 := deframePure_msg false 10000001 (List.replicate 10000001 3) []
    (by rw [List.length_replicate]) (by omega) (by omega)
    (fun h => absurd h (by decide))
  rw [deframePure_nil] at h3
  exact h1.trans ((congrArg (deframePure false) h2).trans h3)

/-- C3 (amended: the bound is enforced by stream_server.py only; the
backup file has no size check): in stream_server.py, every 4-byte length
prefix decoding to a value above 10,000,000 aborts the connection with no
frame pushed and no later bytes of the connection interpreted, and every
positive length at most 10,000,000 whose payload is available is accepted,
its payload becoming the first pushed frame. -/
theorem claim3_size_check (n : Nat) (rest : List Nat) (evs : List Ev)
    (hg : GoodEvents evs) (h32 : n < 4294967296) :
    (10000000 < n →
      receiveFramesMain ⟨beEncode4 n ++ rest, evs⟩ = ([], Stop.oversize))
    ∧ (n ≤ 10000000 → 1 ≤ n → n ≤ rest.length →
      ∃ tl st, receiveFramesMain ⟨beEncode4 n ++ rest, evs⟩
        = (rest.take n :: tl, st)) := by
  constructor
  · intro hbig
    rw [receiveFramesMain_eq _ hg]
    exact deframePure_oversize n rest h32 hbig
  · intro hmax h1 hlen
    rw [receiveFramesMain_eq _ hg]
    rw [show beEncode4 n ++ rest
        = beEncode4 n ++ (rest.take n ++ rest.drop n) from by
      rw [List.take_append_drop]]
    rw [deframePure_msg true n (rest.take n) (rest.drop n)
      (by rw [List.length_take]; omega) (by omega) (by omega)
      (fun _ => hmax)]
    exact ⟨_, _, rfl⟩

/-- C3 witness: a concrete oversized prefix (10,000,001) aborts the
stream_server.py connection with no push, via claim3_size_check. -/
theorem claim3_size_check_witness :
    receiveFramesMain ⟨beEncode4 10000001 ++ [1, 2, 3], []⟩
      = ([], Stop.oversize) :=
  (claim3_size_check 10000001 [1, 2, 3] [] (by decide) (by decide)).1
    (by decide)

/-- C4 counterexample: the two read loops are not behaviorally identical.
On the stream with length prefix 10,000,001 followed by that many bytes,
stream_server.py pushes nothing and aborts with the oversize protocol
error, while stream_server_working_backup.py pushes the whole oversized
frame. -/
theorem claim4_counterexample :
    receiveFramesMain
        ⟨beEncode4 10000001 ++ List.replicate 10000001 7, []⟩
      = ([], Stop.oversize)
    ∧ receiveFramesBackup
        ⟨beEncode4 10000001 ++ List.replicate 10000001 7, []⟩
      = ([List.replicate 10000001 7], Stop.connLost) := by
  constructor
  · exact (receiveFramesMain_eq _ goodEvents_nil).trans
      (deframePure_oversize 10000001 _ (by omega) (by omega))
  · have h1 := receiveFramesBackup_eq
      ⟨beEncode4 10000001 ++ List.replicate 10000001 7, []⟩ goodEvents_nil
    have h2 : beEncode4 10000001 ++ List.replicate 10000001 7
        = beEncode4 10000001 ++ (List.replicate 10000001 7 ++ []) := by
      rw [List.append_nil]
    have h3 := deframePure_msg false 10000001 (List.replicate 10000001 7) []
      (by rw [List.length_replicate]) (by omega) (by omega)
      (fun h => absurd h (by decide))
    rw [deframePure_nil] at h3
    exact h1.trans ((congrArg (deframePure false) h2).trans h3)

/-- C4 (amended: identical except for the 10 MB bound, which only
stream_server.py enforces): on every connection byte stream on which
stream_server.py does not abort for an oversized length prefix, the two
read loops produce the same pushed frames in the same order and the same
connection-abort decision. -/
theorem claim4_equiv (s : Sock) (hg : GoodEvents s.events)
    (hno : (receiveFramesMain s).2 ≠ Stop.oversize) :
    receiveFramesMain s = receiveFramesBackup s := by
  rw [receiveFramesMain_eq s hg] at hno ⊢
  rw [receiveFramesBackup_eq s hg]
  exact deframePure_eq_no_oversize s.data.length s.data le_rfl hno

/-- C4 witness: on a concrete in-bound one-frame stream the two loops
agree, via claim4_equiv. -/
theorem claim4_equiv_witness :
    receiveFramesMain ⟨beEncode4 1 ++ [42], []⟩
      = receiveFramesBackup ⟨beEncode4 1 ++ [42], []⟩ :=
  claim4_equiv ⟨beEncode4 1 ++ [42], []⟩ (by decide) (by decide)

/-- C5 counterexample: the boolean returned by the status endpoint is the
receiver's running flag, not a producer-connected indicator.  In the state
established at startup no producer connection exists, yet the status
boolean is already true, so it is not true if and only if a producer
connection is currently established. -/
theorem claim5_counterexample :
    (statusEndpoint [] initReceiver).2 = true
    ∧ initReceiver.currentClient = none := by
  decide

/-- C5 (amended: the boolean is the running flag, not a connection flag):
the status operation returns the buffer's current occupancy together with
the receiver's running flag, which is true from initialization until stop
regardless of whether a producer is connected. -/
theorem claim5_status (l : List (List Nat)) (r : Receiver) :
    statusEndpoint (List.foldl (queuePush 10) [] l) r
      = (min l.length 10, r.running)
    ∧ initReceiver.running = true
    ∧ (stopReceiver r).running = false := by
  refine ⟨?_, rfl, rfl⟩
  rw [statusEndpoint, foldl_queuePush_nil 10 (by norm_num) l,
    List.length_drop]
  congr 1
  omega

/-- C6: for every n > 0, on a well-formed delivery schedule, recvall of
both variants accumulates partial reads until exactly n bytes are obtained
and returns exactly those n bytes; EOF before n bytes yields None (a
returned byte string always has length exactly n, never a short non-empty
result); and in the resilient variant, timeouts exhausting the 10 s window
before n bytes raise socket.timeout instead of returning short data. -/
theorem claim6_recvall (s : Sock) (n : Nat) (hg : GoodEvents s.events)
    (hn : 0 < n) :
    (n ≤ s.data.length →
      (∃ s1, recvallMain s n = (RecvRes.ok (s.data.take n), s1))
      ∧ (s.data.take n).length = n
      ∧ ∃ s2, recvallBackup s n = (RecvRes.ok (s.data.take n), s2))
    ∧ (s.data.length < n →
      (∃ s1, recvallMain s n = (RecvRes.eof, s1))
      ∧ ∃ s2, recvallBackup s n = (RecvRes.eof, s2))
    ∧ (∀ (r : List Nat) (s1 : Sock),
        recvallMain s n = (RecvRes.ok r, s1) → r.length = n)
    ∧ (∀ (r : List Nat) (s1 : Sock),
        recvallBackup s n = (RecvRes.ok r, s1) → r.length = n)
    ∧ (∀ (data : List Nat) (evs : List Ev),
        recvallMain ⟨data, Ev.tmo :: Ev.tmo :: evs⟩ n
          = (RecvRes.timedOut, ⟨data, evs⟩)) := by
  refine ⟨?_, ?_, ?_, ?_, ?_⟩
  · intro hle
    obtain ⟨evs1, _, _, heq⟩ := recvallMain_ok s n hg hle
    obtain ⟨evs2, _, _, heq2⟩ := recvallBackup_ok s n hg hle
    exact ⟨⟨_, heq⟩, by rw [List.length_take]; omega, _, heq2⟩
  · intro hlt
    obtain ⟨evs1, _, _, heq⟩ := recvallMain_eof s n hg hlt
    obtain ⟨evs2, _, _, heq2⟩ := recvallBackup_eof s n hg hlt
    exact ⟨⟨_, heq⟩, _, heq2⟩
  · exact fun r s1 h => recvallMain_ok_length s n r s1 h
  · exact fun r s1 h => recvallBackup_ok_length s n r s1 h
  · exact fun data evs => recvallMain_two_timeouts data evs n hn

/-- C6 witness: concrete reads, via claim6_recvall: requesting 2 of 3
available bytes returns exactly the first 2 in both variants, and two
timeouts raise in the resilient variant. -/
theorem claim6_recvall_witness :
    ((∃ s1, recvallMain ⟨[5, 6, 7], []⟩ 2
        = (RecvRes.ok ([5, 6, 7].take 2), s1))
      ∧ ([5, 6, 7].take 2).length = 2
      ∧ ∃ s2, recvallBackup ⟨[5, 6, 7], []⟩ 2
        = (RecvRes.ok ([5, 6, 7].take 2), s2))
    ∧ recvallMain ⟨[8], Ev.tmo :: Ev.tmo :: []⟩ 2
        = (RecvRes.timedOut, ⟨[8], []⟩) :=
  ⟨(claim6_recvall ⟨[5, 6, 7], []⟩ 2 (by decide) (by decide)).1 (by decide),
   (claim6_recvall ⟨[5, 6, 7], []⟩ 2 (by decide) (by decide)).2.2.2.2 [8] []⟩

/-- C8: after stop the receiver is terminally stopped: the running flag is
cleared, the producer connection is cleaned up, the listening socket is
closed, an iteration of the receive loop does nothing and pushes no frame,
and none of the receiver's operations (cleanup_client, setup_socket, stop,
the receive loop) sets the running flag back to true. -/
theorem claim8_stop (r : Receiver) (conn : Sock) (b : Bool) :
    (stopReceiver r).running = false
    ∧ (stopReceiver r).currentClient = none
    ∧ (stopReceiver r).serverSocketOpen = false
    ∧ receiveIteration (stopReceiver r) conn = (stopReceiver r, [])
    ∧ (cleanupClient (stopReceiver r)).running = false
    ∧ ((setupSocket (stopReceiver r) b).1).running = false
    ∧ (stopReceiver (stopReceiver r)).running = false := by
  refine ⟨rfl, rfl, rfl, ?_, rfl, rfl, rfl⟩
  simp [receiveIteration, stopReceiver, cleanupClient]

/-- C10: a well-formed message with length prefix 0 is not relayed as an
empty Frame: the zero-byte payload read returns an empty, falsy byte
sequence, which both read loops treat as connection loss, aborting the
connection without pushing any frame. -/
theorem claim10_zero_length (rest : List Nat) (evs evs2 : List Ev)
    (hg : GoodEvents evs) (hg2 : GoodEvents evs2) :
    receiveFramesMain ⟨beEncode4 0 ++ rest, evs⟩ = ([], Stop.connLost)
    ∧ receiveFramesBackup ⟨beEncode4 0 ++ rest, evs2⟩
      = ([], Stop.connLost) := by
  constructor
  · rw [receiveFramesMain_eq _ hg]
    exact deframePure_zero true rest
  · rw [receiveFramesBackup_eq _ hg2]
    exact deframePure_zero false rest

/-- C10 witness: a concrete zero-length message followed by two more
bytes aborts both loops without a push, via claim10_zero_length. -/
theorem claim10_zero_length_witness :
    receiveFramesMain ⟨beEncode4 0 ++ [9, 9], []⟩ = ([], Stop.connLost)
    ∧ receiveFramesBackup ⟨beEncode4 0 ++ [9, 9], []⟩
      = ([], Stop.connLost) :=
  claim10_zero_length [9, 9] [] [] (by decide) (by decide)
